import Mathlib

/-!
Shallow embedding of the PBAC evaluation engine of `src/core/pbac.ts`
(`react-pbac`).  JavaScript `Set<string>` is modelled as a `List String`
with membership queries (`Set` construction dedups, mirrored by `mkSet`);
`Map<K,V>` is an association list with `find?` lookup and in-place
replace-or-append `set` (the iteration-order semantics of JS `Map.set`);
a thrown `Error` is `Except.error` with the message string; `undefined`
user context is the empty context.  `ConditionFunction` results are
`Except String Bool` so that a throwing predicate is representable.
-/

namespace PBAC

abbrev Permission := String

/-- A user context: JS objects are queried by string key here. -/
abbrev UserContext := String → Option String

/-- The empty context: models an absent (`undefined`) user or override. -/
def emptyCtx : UserContext := fun _ => none

/-- Source `ConditionFunction<T>`: a predicate on the merged context that may throw
(`Except.error msg` models `throw new Error(msg)`). -/
abbrev ConditionFunction := UserContext → Except String Bool

/-- Source `PermissionCheckResult`: `{ allowed: boolean; reason?: string }`. -/
structure PermissionCheckResult where
  allowed : Bool
  reason : Option String
deriving Repr, DecidableEq

/-- Source `new Set(list)`: deduplicating, first occurrence kept. -/
def mkSet (l : List String) : List String :=
  l.foldl (fun acc x => if acc.contains x then acc else acc ++ [x]) []

/-- Source `Map.get` on an association list. -/
def rulesFind? (l : List (Permission × ConditionFunction)) (p : Permission) :
    Option ConditionFunction :=
  match l with
  | [] => none
  | e :: rest => if e.1 == p then some e.2 else rulesFind? rest p

/-- Source `Map.set`: replace the value in place when the key exists, append otherwise. -/
def rulesSet (l : List (Permission × ConditionFunction)) (p : Permission)
    (c : ConditionFunction) : List (Permission × ConditionFunction) :=
  match l with
  | [] => [(p, c)]
  | e :: rest => if e.1 == p then (p, c) :: rest else e :: rulesSet rest p c

/-- Source `Map.delete` on an association list. -/
def rulesDelete (l : List (Permission × ConditionFunction)) (p : Permission) :
    List (Permission × ConditionFunction) :=
  l.filter (fun e => e.1 != p)

/-- Source `Map.get` for the role → permission-set map. -/
def rpFind? (l : List (String × List Permission)) (r : String) :
    Option (List Permission) :=
  match l with
  | [] => none
  | e :: rest => if e.1 == r then some e.2 else rpFind? rest r

/-- The private state of a `PBACCore<T>` instance. -/
structure PBACCore where
  permissions : List Permission
  rules : List (Permission × ConditionFunction)
  user : UserContext
  roles : List String
  rolePermissions : List (String × List Permission)

/-- Source `setPermissions(permissions)`: replaces the permission set. -/
def setPermissions (s : PBACCore) (permissions : List Permission) : PBACCore :=
  { s with permissions := mkSet permissions }

/-- The body of the `addPermissions` loop: `this.permissions.add(p)`
(append when absent). -/
def addOnePermission (st : PBACCore) (p : Permission) : PBACCore :=
  { st with
    permissions :=
      if st.permissions.contains p then st.permissions
      else st.permissions ++ [p] }

/-- Source `addPermissions(permissions)`: `forEach(p => this.permissions.add(p))`. -/
def addPermissions (s : PBACCore) (permissions : List Permission) : PBACCore :=
  permissions.foldl addOnePermission s

/-- The body of the `removePermissions` loop:
`this.permissions.delete(p); this.rules.delete(p)`. -/
def removeOnePermission (st : PBACCore) (p : Permission) : PBACCore :=
  { st with
    permissions := st.permissions.filter (fun q => q != p)
    rules := rulesDelete st.rules p }

/-- Source `removePermissions(permissions)`: deletes each from the permission set
and from the condition map. -/
def removePermissions (s : PBACCore) (permissions : List Permission) : PBACCore :=
  permissions.foldl removeOnePermission s

/-- Source `isValidRole(role)`: membership in the role set. -/
def isValidRole (s : PBACCore) (role : String) : Bool :=
  s.roles.contains role

/-- Source `hasWildcardRole(permissions)`: `permissions.has("*")`. -/
def hasWildcardRole (permissions : List Permission) : Bool :=
  permissions.contains "*"

/-- Source `getRolePermissions(role)`: throws when the role is not valid, else the
permission set of the role (or the empty set when unmapped). -/
def getRolePermissions (s : PBACCore) (role : String) :
    Except String (List Permission) :=
  if !isValidRole s role then
    Except.error ("Role \x27" ++ role ++ "\x27 is not valid.")
  else
    match rpFind? s.rolePermissions role with
    | some perms => Except.ok perms
    | none => Except.ok []

/-- Source `setCondition(permission, condition)`: throws when the permission is not
in the granted set, else registers (replacing) the condition. -/
def setCondition (s : PBACCore) (permission : Permission)
    (condition : ConditionFunction) : Except String PBACCore :=
  if !s.permissions.contains permission then
    Except.error
      ("Cannot add condition. Permission \x27" ++ permission ++
        "\x27 does not exist.")
  else
    Except.ok { s with rules := rulesSet s.rules permission condition }

/-- Source `getCondition(permission)`. -/
def getCondition (s : PBACCore) (permission : Permission) :
    Option ConditionFunction :=
  rulesFind? s.rules permission

/-- Source `clearConditions(permission)`. -/
def clearConditions (s : PBACCore) (permission : Permission) : PBACCore :=
  { s with rules := rulesDelete s.rules permission }

/-- Source `hasRolePermission(role, permission)`: permissions of the role (throws on
an invalid role), then the role-level wildcard check, then membership. -/
def hasRolePermission (s : PBACCore) (role : String) (permission : Permission) :
    Except String Bool :=
  match getRolePermissions s role with
  | Except.error e => Except.error e
  | Except.ok rolePermissions =>
    if hasWildcardRole rolePermissions then Except.ok true
    else Except.ok (rolePermissions.contains permission)

/-- Source `hasPermission(permission)`: wildcard short-circuit, then membership. -/
def hasPermission (s : PBACCore) (permission : Permission) : Bool :=
  if hasWildcardRole s.permissions then true
  else s.permissions.contains permission

/-- Source `{...this.user, ...context}`: override keys win on conflict. -/
def mergeCtx (user : UserContext) (context : UserContext) : UserContext :=
  fun k => match context k with
  | some v => some v
  | none => user k

/-- Source `can(permission, context)`: the decision algorithm. -/
def can (s : PBACCore) (permission : Permission) (context : UserContext) :
    PermissionCheckResult :=
  -- `hasWildcard` and `evaluationContext` are `const` bindings of pure
  -- expressions in the source; they are inlined here.
  if !hasPermission s permission then
    { allowed := false
      reason := some ("Permission \x27" ++ permission ++ "\x27 not granted") }
  else if s.permissions.contains "*" && !s.permissions.contains permission then
    match rulesFind? s.rules "*" with
    | none => { allowed := true, reason := none }
    | some wildcardConditions =>
      match wildcardConditions (mergeCtx s.user context) with
      | Except.ok true => { allowed := true, reason := none }
      | Except.ok false =>
        { allowed := false
          reason := some ("Wildcard condition failed for permission \x27" ++
            permission ++ "\x27") }
      | Except.error e =>
        { allowed := false
          reason := some ("Error evaluating wildcard condition: " ++ e) }
  else
    match rulesFind? s.rules permission with
    | none => { allowed := true, reason := none }
    | some conditions =>
      match conditions (mergeCtx s.user context) with
      | Except.ok true => { allowed := true, reason := none }
      | Except.ok false =>
        { allowed := false
          reason := some ("Condition failed for permission \x27" ++
            permission ++ "\x27") }
      | Except.error e =>
        { allowed := false
          reason := some ("Error evaluating condition for permission \x27" ++
            permission ++ "\x27: " ++ e) }

/-- Source `canAll(permissions, context)`: left-to-right, first failure returned. -/
def canAll (s : PBACCore) (permissions : List Permission)
    (context : UserContext) : PermissionCheckResult :=
  match permissions with
  | [] => { allowed := true, reason := none }
  | p :: rest =>
    let result := can s p context
    if result.allowed then canAll s rest context else result

/-- The loop of `canAny`, carrying the `failedReasons` accumulator.  A falsy
(empty) reason is not pushed, mirroring `if (result.reason)`. -/
def canAnyAux (s : PBACCore) (permissions : List Permission)
    (context : UserContext) (failedReasons : List String) :
    PermissionCheckResult :=
  match permissions with
  | [] =>
    { allowed := false
      reason := some ("None of the permissions passed: " ++
        String.intercalate ", " failedReasons) }
  | p :: rest =>
    let result := can s p context
    if result.allowed then { allowed := true, reason := none }
    else
      match result.reason with
      | some r =>
        if r == "" then canAnyAux s rest context failedReasons
        else canAnyAux s rest context (failedReasons ++ [r])
      | none => canAnyAux s rest context failedReasons

/-- Source `canAny(permissions, context)`: first success wins; otherwise all
collected denial reasons are joined. -/
def canAny (s : PBACCore) (permissions : List Permission)
    (context : UserContext) : PermissionCheckResult :=
  canAnyAux s permissions context []

/-! Concrete instances and conditions used to evaluate the definitions. -/

/-- A condition that always passes. -/
def condTrue : ConditionFunction := fun _ => Except.ok true

/-- A condition that always fails. -/
def condFalse : ConditionFunction := fun _ => Except.ok false

/-- A condition that throws. -/
def condThrow : ConditionFunction := fun _ => Except.error "boom"

/-- A condition requiring `context.verified === "true"`. -/
def condVerified : ConditionFunction := fun ctx =>
  Except.ok (ctx "verified" == some "true")

/-- An instance with no permissions at all. -/
def exEmpty : PBACCore :=
  { permissions := [], rules := [], user := emptyCtx, roles := []
    rolePermissions := [] }

/-- An instance holding only the wildcard, with no roles registered. -/
def exWildcard : PBACCore :=
  { permissions := ["*"], rules := [], user := emptyCtx, roles := []
    rolePermissions := [] }

/-- Wildcard granted, with a `"*"`-keyed condition requiring verification. -/
def exWildcardCond : PBACCore :=
  { permissions := ["*"], rules := [("*", condVerified)], user := emptyCtx
    roles := [], rolePermissions := [] }

/-- Permissions `a`, `b`; the condition on `a` throws, the one on `b` fails. -/
def exConds : PBACCore :=
  { permissions := ["a", "b"], rules := [("a", condThrow), ("b", condFalse)]
    user := emptyCtx, roles := [], rolePermissions := [] }

/-! ### C6: absent permission, no wildcard -/

/-- C6: when neither the permission nor the wildcard is in the permission
set, `can` denies with exactly the not-granted reason shown in the statement,
for every context override. -/
theorem can_not_granted (s : PBACCore) (p : Permission) (ctx : UserContext)
    (h1 : s.permissions.contains p = false)
    (h2 : s.permissions.contains "*" = false) :
    can s p ctx =
      ⟨false, some ("Permission \x27" ++ p ++ "\x27 not granted")⟩ := by
  have h1' : p ∉ s.permissions := by simpa using h1
  have h2' : "*" ∉ s.permissions := by simpa using h2
  unfold can hasPermission hasWildcardRole
  simp [h1, h2, h1', h2']

/-- Witness for `can_not_granted` on a concrete instance. -/
theorem can_not_granted_witness :
    can exEmpty "posts.delete" emptyCtx =
      ⟨false, some ("Permission \x27" ++ "posts.delete" ++ "\x27 not granted")⟩ :=
  can_not_granted exEmpty "posts.delete" emptyCtx rfl rfl

/-! ### C10: `canAny` on the empty list vs `canAll` -/

/-- C10: `canAny` of the empty list denies with the fixed prefix followed by
the empty join, while `canAll` of the empty list allows. -/
theorem canAny_empty_denies (s : PBACCore) (ctx : UserContext) :
    canAny s [] ctx = ⟨false, some "None of the permissions passed: "⟩ ∧
    canAll s [] ctx = ⟨true, none⟩ := by
  constructor
  · rfl
  · rfl

/-! ### C3: wildcard-covered, not explicitly granted -/

/-- A context mapping `"verified"` to `"true"`. -/
def ctxVerifiedTrue : UserContext := fun k =>
  if k == "verified" then some "true" else none

/-- C3: for a permission covered only by the wildcard, `can` allows
unconditionally when no `"*"`-keyed condition exists; with a `"*"`-keyed
condition, it allows iff the condition on the merged context returns true,
and otherwise denies with the wildcard-condition reason. -/
theorem can_wildcard_branch (s : PBACCore) (p : Permission) (ctx : UserContext)
    (h1 : s.permissions.contains "*" = true)
    (h2 : s.permissions.contains p = false) :
    (rulesFind? s.rules "*" = none → can s p ctx = ⟨true, none⟩) ∧
    (∀ c, rulesFind? s.rules "*" = some c →
      c (mergeCtx s.user ctx) = Except.ok true →
      can s p ctx = ⟨true, none⟩) ∧
    (∀ c, rulesFind? s.rules "*" = some c →
      c (mergeCtx s.user ctx) = Except.ok false →
      can s p ctx =
        ⟨false, some ("Wildcard condition failed for permission \x27" ++
          p ++ "\x27")⟩) := by
  have h1' : "*" ∈ s.permissions := by simpa using h1
  have h2' : p ∉ s.permissions := by simpa using h2
  refine ⟨fun hn => ?_, fun c hc hv => ?_, fun c hc hv => ?_⟩ <;>
    · unfold can hasPermission hasWildcardRole
      first
      | simp [h1, h2, h1', h2', hn]
      | simp [h1, h2, h1', h2', hc, hv]

/-- Witness for `can_wildcard_branch`: the wildcard condition rejects an
unverified context. -/
theorem can_wildcard_branch_witness :
    can exWildcardCond "anything" emptyCtx =
      ⟨false, some ("Wildcard condition failed for permission \x27" ++
        "anything" ++ "\x27")⟩ :=
  (can_wildcard_branch exWildcardCond "anything" emptyCtx rfl rfl).2.2
    condVerified rfl rfl

/-! ### C4: a throwing condition is contained as a denial -/

/-- C4: when the condition that `can` evaluates for `p` (under the literal
key when `p` is literally granted, under `"*"` when `p` is only
wildcard-covered) throws, `can` returns a normal denial whose reason begins
with `"Error evaluating"` and embeds the thrown message; `can` is a total
function into `PermissionCheckResult`, so the exception is never propagated. -/
theorem can_contains_condition_error (s : PBACCore) (p : Permission)
    (ctx : UserContext) (c : ConditionFunction) (msg : String)
    (hsel : (s.permissions.contains p = true ∧
        rulesFind? s.rules p = some c) ∨
      (s.permissions.contains p = false ∧
        s.permissions.contains "*" = true ∧
        rulesFind? s.rules "*" = some c))
    (herr : c (mergeCtx s.user ctx) = Except.error msg) :
    (can s p ctx).allowed = false ∧
    ∃ mid, (can s p ctx).reason =
      some (("Error evaluating" ++ mid) ++ msg) := by
  rcases hsel with ⟨hp, hc⟩ | ⟨hp, hw, hc⟩
  · have hp' : p ∈ s.permissions := by simpa using hp
    have hres : can s p ctx =
        ⟨false, some ("Error evaluating condition for permission \x27" ++
          p ++ "\x27: " ++ msg)⟩ := by
      unfold can hasPermission hasWildcardRole
      simp [hp, hp', hc, herr]
    refine ⟨by rw [hres], ⟨" condition for permission \x27" ++ p ++ "\x27: ", ?_⟩⟩
    rw [hres]
    congr 1
  · have hp' : p ∉ s.permissions := by simpa using hp
    have hw' : "*" ∈ s.permissions := by simpa using hw
    have hres : can s p ctx =
        ⟨false, some ("Error evaluating wildcard condition: " ++ msg)⟩ := by
      unfold can hasPermission hasWildcardRole
      simp [hp, hp', hw, hw', hc, herr]
    refine ⟨by rw [hres], ⟨" wildcard condition: ", ?_⟩⟩
    rw [hres]
    simp [String.append_assoc]

/-- Witness for `can_contains_condition_error`: the condition on `a` throws
`"boom"`. -/
theorem can_contains_condition_error_witness :
    (can exConds "a" emptyCtx).allowed = false ∧
    ∃ mid, (can exConds "a" emptyCtx).reason =
      some (("Error evaluating" ++ mid) ++ "boom") :=
  can_contains_condition_error exConds "a" emptyCtx condThrow "boom"
    (Or.inl ⟨rfl, rfl⟩) rfl

/-! ### C5: `canAll` short-circuits on the first failure -/

/-- Permission `a` granted with no condition; `b` is not granted. -/
def exMix : PBACCore :=
  { permissions := ["a"], rules := [], user := emptyCtx, roles := []
    rolePermissions := [] }

/-- C5: `canAll` returns the first failing `can` result unchanged, and its
value does not depend on any element after the first failure; it returns
`{allowed:true}` iff the list is empty or every element passes. -/
theorem canAll_spec (s : PBACCore) (ctx : UserContext) :
    (∀ (l1 : List Permission) (x : Permission) (l2 : List Permission),
      (∀ q ∈ l1, (can s q ctx).allowed = true) →
      (can s x ctx).allowed = false →
      canAll s (l1 ++ x :: l2) ctx = can s x ctx) ∧
    (∀ l : List Permission,
      canAll s l ctx = ⟨true, none⟩ ↔
        ∀ q ∈ l, (can s q ctx).allowed = true) := by
  constructor
  · intro l1
    induction l1 with
    | nil =>
      intro x l2 _ hx
      simp [canAll, hx]
    | cons q l1 ih =>
      intro x l2 hall hx
      have hq : (can s q ctx).allowed = true := hall q (by simp)
      simpa [canAll, hq] using ih x l2 (fun r hr => hall r (by simp [hr])) hx
  · intro l
    induction l with
    | nil => simp [canAll]
    | cons p l ih =>
      by_cases hp : (can s p ctx).allowed = true
      · simp [canAll, hp, ih]
      · have hp' : (can s p ctx).allowed = false := by
          simpa using hp
        have hcc : canAll s (p :: l) ctx = can s p ctx := by
          simp [canAll, hp']
        rw [hcc]
        constructor
        · intro h
          exact absurd (by rw [h] : (can s p ctx).allowed = true) hp
        · intro h
          exact absurd (h p (by simp)) hp

/-- Witness for `canAll_spec`: with only `a` granted, checking
`[a, b, c]` yields the failure of `b` (the result is that of `b`,
independent of `c`). -/
theorem canAll_spec_witness :
    canAll exMix (["a"] ++ "b" :: ["c"]) emptyCtx = can exMix "b" emptyCtx :=
  (canAll_spec exMix emptyCtx).1 ["a"] "b" ["c"]
    (by intro q hq; simp only [List.mem_singleton] at hq; subst hq; rfl) rfl

/-! ### C7: revoking a permission also drops its condition -/

/-- Permission `a` granted, with a registered condition. -/
def exCond : PBACCore :=
  { permissions := ["a"], rules := [("a", condTrue)], user := emptyCtx
    roles := [], rolePermissions := [] }

theorem rulesFind?_eq_none_iff (l : List (Permission × ConditionFunction))
    (p : Permission) :
    rulesFind? l p = none ↔ ∀ e ∈ l, ¬(e.1 = p) := by
  induction l with
  | nil => simp [rulesFind?]
  | cons e rest ih =>
    by_cases h : e.1 = p
    · simp [rulesFind?, h]
    · simp [rulesFind?, h, ih]

theorem rulesFind?_rulesDelete_self (l : List (Permission × ConditionFunction))
    (p : Permission) :
    rulesFind? (rulesDelete l p) p = none := by
  rw [rulesFind?_eq_none_iff]
  intro e he
  have := List.of_mem_filter he
  simpa using this

theorem rulesFind?_rulesDelete_none (l : List (Permission × ConditionFunction))
    (p q : Permission) (h : rulesFind? l p = none) :
    rulesFind? (rulesDelete l q) p = none := by
  rw [rulesFind?_eq_none_iff] at h ⊢
  intro e he
  exact h e (List.mem_of_mem_filter he)

theorem contains_filter_ne (l : List String) (p : String) :
    (l.filter (fun q => q != p)).contains p = false := by
  simp only [List.contains, List.elem_eq_mem, decide_eq_false_iff_not]
  intro hmem
  have := List.of_mem_filter hmem
  simp at this

theorem contains_filter_false (l : List String) (p q : String)
    (h : l.contains p = false) :
    (l.filter (fun r => r != q)).contains p = false := by
  simp only [List.contains, List.elem_eq_mem, decide_eq_false_iff_not] at h ⊢
  intro hmem
  exact h (List.mem_of_mem_filter hmem)

theorem removePermissions_preserves_absent (l : List Permission)
    (s : PBACCore) (p : Permission)
    (h1 : s.permissions.contains p = false)
    (h2 : rulesFind? s.rules p = none) :
    (removePermissions s l).permissions.contains p = false ∧
    rulesFind? (removePermissions s l).rules p = none := by
  induction l generalizing s with
  | nil => exact ⟨h1, h2⟩
  | cons q l ih =>
    exact ih (removeOnePermission s q)
      (contains_filter_false s.permissions p q h1)
      (rulesFind?_rulesDelete_none s.rules p q h2)

theorem addPermissions_rules (l : List Permission) (s : PBACCore) :
    (addPermissions s l).rules = s.rules := by
  induction l generalizing s with
  | nil => rfl
  | cons q l ih => exact (ih (addOnePermission s q)).trans rfl

theorem addOnePermission_contains_mono (s : PBACCore) (q p : Permission)
    (h : s.permissions.contains p = true) :
    (addOnePermission s q).permissions.contains p = true := by
  have h' : p ∈ s.permissions := by simpa using h
  simp only [addOnePermission]
  by_cases hq : q ∈ s.permissions
  · simp [hq, h']
  · simp [hq, h']

theorem addOnePermission_contains_self (s : PBACCore) (p : Permission) :
    (addOnePermission s p).permissions.contains p = true := by
  simp only [addOnePermission]
  by_cases hq : p ∈ s.permissions
  · simp [hq]
  · simp [hq]

theorem addPermissions_contains_mono (l : List Permission) (s : PBACCore)
    (p : Permission) (h : s.permissions.contains p = true) :
    (addPermissions s l).permissions.contains p = true := by
  induction l generalizing s with
  | nil => exact h
  | cons q l ih =>
    exact ih (addOnePermission s q) (addOnePermission_contains_mono s q p h)

theorem addPermissions_contains_of_mem (l : List Permission) (s : PBACCore)
    (p : Permission) (hp : p ∈ l) :
    (addPermissions s l).permissions.contains p = true := by
  induction l generalizing s with
  | nil => cases hp
  | cons q l ih =>
    rcases List.mem_cons.mp hp with h | h
    · subst h
      exact addPermissions_contains_mono l (addOnePermission s p) p
        (addOnePermission_contains_self s p)
    · exact ih (addOnePermission s q) h

/-- C7: revoking a list containing `p` removes `p` from the permission set
and drops any condition registered under `p`; a later re-grant restores the
permission but no condition survives the revoke/re-grant cycle. -/
theorem revoke_clears_condition (s : PBACCore) (l : List Permission)
    (p : Permission) (hp : p ∈ l) :
    (removePermissions s l).permissions.contains p = false ∧
    getCondition (removePermissions s l) p = none ∧
    ∀ l2, p ∈ l2 →
      (addPermissions (removePermissions s l) l2).permissions.contains p =
        true ∧
      getCondition (addPermissions (removePermissions s l) l2) p = none := by
  have hmain : (removePermissions s l).permissions.contains p = false ∧
      rulesFind? (removePermissions s l).rules p = none := by
    induction l generalizing s with
    | nil => cases hp
    | cons q l ih =>
      rcases List.mem_cons.mp hp with h | h
      · subst h
        exact removePermissions_preserves_absent l (removeOnePermission s p) p
          (contains_filter_ne s.permissions p)
          (rulesFind?_rulesDelete_self s.rules p)
      · exact ih (removeOnePermission s q) h
  refine ⟨hmain.1, hmain.2, fun l2 hl2 => ?_⟩
  refine ⟨addPermissions_contains_of_mem l2 _ p hl2, ?_⟩
  show rulesFind? (addPermissions (removePermissions s l) l2).rules p = none
  rw [addPermissions_rules]
  exact hmain.2

/-- Witness for `revoke_clears_condition`: revoke then re-grant `a`. -/
theorem revoke_clears_condition_witness :
    (addPermissions (removePermissions exCond ["a"]) ["a"]).permissions.contains
      "a" = true ∧
    getCondition (addPermissions (removePermissions exCond ["a"]) ["a"]) "a" =
      none :=
  (revoke_clears_condition exCond ["a"] "a" (by simp)).2.2 ["a"] (by simp)

/-! ### C8: registering a condition requires the permission to be granted -/

theorem rulesFind?_rulesSet_self (l : List (Permission × ConditionFunction))
    (p : Permission) (c : ConditionFunction) :
    rulesFind? (rulesSet l p c) p = some c := by
  induction l with
  | nil => simp [rulesSet, rulesFind?]
  | cons e rest ih =>
    by_cases h : e.1 = p
    · simp [rulesSet, rulesFind?, h]
    · simp [rulesSet, rulesFind?, h, ih]

theorem rulesFind?_rulesSet_ne (l : List (Permission × ConditionFunction))
    (p : Permission) (c : ConditionFunction) (q : Permission) (h : q ≠ p) :
    rulesFind? (rulesSet l p c) q = rulesFind? l q := by
  induction l with
  | nil => simp [rulesSet, rulesFind?, Ne.symm h]
  | cons e rest ih =>
    by_cases he : e.1 = p
    · simp [rulesSet, rulesFind?, he, Ne.symm h]
    · simp [rulesSet, rulesFind?, he, ih]

/-- C8: `setCondition` on an ungranted permission fails with the
`UnknownPermission` error (an `Except.error`, not a `CheckResult`; the state
is not updated, so the registry is unchanged); on a granted permission it
succeeds, the new condition replaces any prior one under that key, and all
other keys are untouched. -/
theorem setCondition_spec (s : PBACCore) (p : Permission)
    (c : ConditionFunction) :
    (s.permissions.contains p = false →
      setCondition s p c =
        Except.error ("Cannot add condition. Permission \x27" ++ p ++
          "\x27 does not exist.")) ∧
    (s.permissions.contains p = true →
      ∃ s2, setCondition s p c = Except.ok s2 ∧
        getCondition s2 p = some c ∧
        s2.permissions = s.permissions ∧
        s2.user = s.user ∧ s2.roles = s.roles ∧
        s2.rolePermissions = s.rolePermissions ∧
        ∀ q, q ≠ p → getCondition s2 q = getCondition s q) := by
  constructor
  · intro h
    have h' : p ∉ s.permissions := by simpa using h
    simp [setCondition, h, h']
  · intro h
    have h' : p ∈ s.permissions := by simpa using h
    refine ⟨{ s with rules := rulesSet s.rules p c }, ?_, ?_, rfl, rfl, rfl,
      rfl, ?_⟩
    · simp [setCondition, h, h']
    · exact rulesFind?_rulesSet_self s.rules p c
    · intro q hq
      exact rulesFind?_rulesSet_ne s.rules p c q hq

/-- Witness for `setCondition_spec`: registering on an ungranted permission
fails. -/
theorem setCondition_spec_witness :
    setCondition exEmpty "x" condTrue =
      Except.error ("Cannot add condition. Permission \x27" ++ "x" ++
        "\x27 does not exist.") :=
  (setCondition_spec exEmpty "x" condTrue).1 rfl

/-! ### C9: `setPermissions` does not touch the condition registry -/

/-- C9: fully replacing the permission set changes only the permission set;
the condition registry, user, roles and role map are untouched, so a
condition registered for a permission missing from the new set survives and
is found again once that permission is re-granted. -/
theorem setPermissions_frame (s : PBACCore) (l : List Permission) :
    (setPermissions s l).rules = s.rules ∧
    (setPermissions s l).user = s.user ∧
    (setPermissions s l).roles = s.roles ∧
    (setPermissions s l).rolePermissions = s.rolePermissions ∧
    (setPermissions s l).permissions = mkSet l ∧
    ∀ p c, getCondition s p = some c →
      getCondition (setPermissions s l) p = some c ∧
      getCondition (addPermissions (setPermissions s l) [p]) p = some c ∧
      (addPermissions (setPermissions s l) [p]).permissions.contains p =
        true := by
  refine ⟨rfl, rfl, rfl, rfl, rfl, fun p c h => ⟨h, ?_, ?_⟩⟩
  · show rulesFind? (addPermissions (setPermissions s l) [p]).rules p = some c
    rw [addPermissions_rules]
    exact h
  · exact addPermissions_contains_of_mem [p] _ p (by simp)

/-- Witness for `setPermissions_frame`: the condition on `a` survives a
replacement that drops `a`, and is found again after re-granting `a`. -/
theorem setPermissions_frame_witness :
    getCondition (addPermissions (setPermissions exCond ["b"]) ["a"]) "a" =
      some condTrue :=
  ((setPermissions_frame exCond ["b"]).2.2.2.2.2 "a" condTrue rfl).2.1

/-! ### C2: `hasRolePermission` and the principal-level wildcard -/

/-- Counterexample to C2 as stated: the principal holds the global wildcard
and the role is unregistered, yet `hasRolePermission` fails with the
`InvalidRole` error instead of returning true. -/
theorem hasRolePermission_wildcard_cex :
    exWildcard.permissions.contains "*" = true ∧
    exWildcard.roles.contains "admin" = false ∧
    hasRolePermission exWildcard "admin" "x" =
      Except.error ("Role \x27" ++ "admin" ++ "\x27 is not valid.") :=
  ⟨rfl, rfl, rfl⟩

/-- C2 amended: `hasRolePermission` never consults the permission set of the
principal.  For every role not in the registered role set it fails with
the `InvalidRole` error (even when the principal holds `"*"`); for a
registered role it returns true iff the permission set of the role contains
`"*"` or the queried permission. -/
theorem hasRolePermission_spec (s : PBACCore) (r : String) (p : Permission) :
    hasRolePermission s r p =
      if s.roles.contains r then
        Except.ok (((rpFind? s.rolePermissions r).getD []).contains "*" ||
          ((rpFind? s.rolePermissions r).getD []).contains p)
      else
        Except.error ("Role \x27" ++ r ++ "\x27 is not valid.") := by
  unfold hasRolePermission getRolePermissions isValidRole hasWildcardRole
  by_cases h : r ∈ s.roles
  · have hc : s.roles.contains r = true := by simpa using h
    cases hfind : rpFind? s.rolePermissions r with
    | none => simp [h, hc, hfind]
    | some perms =>
      by_cases hcw : "*" ∈ perms
      · simp [h, hc, hfind, hcw]
      · simp [h, hc, hfind, hcw]
  · have hc : s.roles.contains r = false := by simpa using h
    simp [h, hc]

/-- Witness for `hasRolePermission_spec` at a concrete unregistered role. -/
theorem hasRolePermission_spec_witness :
    hasRolePermission exWildcard "admin" "x" =
      (if exWildcard.roles.contains "admin" then
        Except.ok
          (((rpFind? exWildcard.rolePermissions "admin").getD
            []).contains "*" ||
          ((rpFind? exWildcard.rolePermissions "admin").getD
            []).contains "x")
      else Except.error ("Role \x27" ++ "admin" ++ "\x27 is not valid.")) :=
  hasRolePermission_spec exWildcard "admin" "x"

/-! ### C1: `canAny` when every permission fails -/

/-- The denial reason an individual `can` call produced (empty if none). -/
def denialReason (s : PBACCore) (ctx : UserContext) (p : Permission) :
    String :=
  ((can s p ctx).reason).getD ""

theorem beq_empty_false_of_length (x : String) (h : x.length ≠ 0) :
    (x == "") = false := by
  cases hx : x == ""
  · rfl
  · have hx' : x = "" := eq_of_beq hx
    subst hx'
    simp at h

theorem append_lit_ne_empty (x lit : String) (hl : lit.length ≠ 0) :
    ((x ++ lit) == "") = false := by
  apply beq_empty_false_of_length
  rw [String.length_append]
  omega

theorem lit_append_ne_empty (lit x : String) (hl : lit.length ≠ 0) :
    ((lit ++ x) == "") = false := by
  apply beq_empty_false_of_length
  rw [String.length_append]
  omega

theorem mid_lit_ne_empty (x lit z : String) (hl : lit.length ≠ 0) :
    (((x ++ lit) ++ z) == "") = false := by
  apply beq_empty_false_of_length
  rw [String.length_append, String.length_append]
  omega

/-- Every `can` result is either the bare allowance or a denial carrying a
non-empty reason. -/
theorem can_reason_spec (s : PBACCore) (p : Permission) (ctx : UserContext) :
    can s p ctx = ⟨true, none⟩ ∨
    ∃ r, can s p ctx = ⟨false, some r⟩ ∧ (r == "") = false := by
  unfold can
  split
  · right
    exact ⟨_, rfl, append_lit_ne_empty _ _ (by decide)⟩
  · split
    · split
      · left; rfl
      · split
        · left; rfl
        · right
          exact ⟨_, rfl, append_lit_ne_empty _ _ (by decide)⟩
        · right
          exact ⟨_, rfl, lit_append_ne_empty _ _ (by decide)⟩
    · split
      · left; rfl
      · split
        · left; rfl
        · right
          exact ⟨_, rfl, append_lit_ne_empty _ _ (by decide)⟩
        · right
          exact ⟨_, rfl, mid_lit_ne_empty _ _ _ (by decide)⟩

theorem can_denied_reason_nonempty (s : PBACCore) (p : Permission)
    (ctx : UserContext) (h : (can s p ctx).allowed = false) :
    ∃ r, (can s p ctx).reason = some r ∧ (r == "") = false := by
  rcases can_reason_spec s p ctx with hok | ⟨r, hr, hne⟩
  · rw [hok] at h
    simp at h
  · exact ⟨r, by rw [hr], hne⟩

theorem canAnyAux_all_fail (s : PBACCore) (ctx : UserContext)
    (ps : List Permission) :
    ∀ acc, (∀ p ∈ ps, (can s p ctx).allowed = false) →
    canAnyAux s ps ctx acc =
      ⟨false, some ("None of the permissions passed: " ++
        String.intercalate ", " (acc ++ ps.map (denialReason s ctx)))⟩ := by
  induction ps with
  | nil =>
    intro acc _
    simp [canAnyAux]
  | cons p ps ih =>
    intro acc h
    have hp := h p (by simp)
    obtain ⟨r, hr, hne⟩ := can_denied_reason_nonempty s p ctx hp
    have hstep : canAnyAux s (p :: ps) ctx acc =
        canAnyAux s ps ctx (acc ++ [r]) := by
      simp only [canAnyAux, hp, hr, hne]
      simp
    rw [hstep, ih (acc ++ [r]) (fun q hq => h q (by simp [hq]))]
    have hlist : (acc ++ [r]) ++ ps.map (denialReason s ctx) =
        acc ++ (p :: ps).map (denialReason s ctx) := by
      simp [denialReason, hr, List.append_assoc]
    rw [hlist]

/-- Counterexample to C1 as stated: both permissions fail with their
individual reasons, but the reason of `canAny` is not their plain `", "`-join —
the code prefixes `"None of the permissions passed: "`. -/
theorem canAny_join_cex :
    (can exEmpty "a" emptyCtx).reason =
      some ("Permission \x27" ++ "a" ++ "\x27 not granted") ∧
    (can exEmpty "b" emptyCtx).reason =
      some ("Permission \x27" ++ "b" ++ "\x27 not granted") ∧
    canAny exEmpty ["a", "b"] emptyCtx ≠
      ⟨false, some
        ("Permission \x27a\x27 not granted, Permission \x27b\x27 not granted")⟩ ∧
    canAny exEmpty ["a", "b"] emptyCtx =
      ⟨false, some ("None of the permissions passed: Permission \x27a\x27 " ++
        "not granted, Permission \x27b\x27 not granted")⟩ :=
  ⟨rfl, rfl, by decide, by decide⟩

/-- C1 amended: for a non-empty list in which every permission fails, every
element is evaluated and `canAny` denies with the fixed prefix
`"None of the permissions passed: "` followed by the individual denial
reasons joined with `", "` in list order. -/
theorem canAny_all_fail (s : PBACCore) (ps : List Permission)
    (ctx : UserContext) (_hne : ps ≠ [])
    (hfail : ∀ p ∈ ps, (can s p ctx).allowed = false) :
    canAny s ps ctx =
      ⟨false, some ("None of the permissions passed: " ++
        String.intercalate ", " (ps.map (denialReason s ctx)))⟩ := by
  have h := canAnyAux_all_fail s ctx ps [] hfail
  simpa [canAny] using h

/-- Witness for `canAny_all_fail`: `a` throws and the condition on `b` fails. -/
theorem canAny_all_fail_witness :
    canAny exConds ["a", "b"] emptyCtx =
      ⟨false, some ("None of the permissions passed: " ++
        String.intercalate ", "
          (["a", "b"].map (denialReason exConds emptyCtx)))⟩ :=
  canAny_all_fail exConds ["a", "b"] emptyCtx (by simp)
    (by
      intro p hp
      simp only [List.mem_cons, List.not_mem_nil, or_false] at hp
      rcases hp with h | h <;> subst h <;> rfl)

end PBAC
